import Mathlib

/-!
Verification of the packed-binary dataset engine of
`demo/llama/dataset.py` (borrowed from lit-llama's `packed_dataset.py`
with GCS-based data loading): the header parser, the per-worker shard
partitioner, the rolling chunk window with shuffle/wrap semantics, and
the weighted multi-source combinator.

The Python code is embedded shallowly: machine integers are `Nat`/`Int`
with explicit reductions, byte strings are `List Nat` (each entry one
byte), fallible code returns `Except PyError`.  Exceptions raised by the
Python runtime (`StopIteration`, `AssertionError`/`KeyError` during
header validation, `UnboundLocalError`, `IndexError`, `TypeError`,
`ValueError`, `ZeroDivisionError`) are constructors of `PyError`.
External collaborators (the GCS byte-fetch, numpy's seeded generator,
CPython's `random.Random`) are modelled explicitly where noted.
-/

/-- Python exception outcomes of the dataset engine.  `endOfShard` is
`StopIteration`; `formatError` covers the `AssertionError`s and the
`KeyError` raised while validating a packed-file header. -/
inductive PyError where
  | endOfShard
  | formatError
  | unboundLocal
  | indexError
  | typeError
  | valueError
  | zeroDivision
  deriving DecidableEq, Repr

/-- The eight recognized element types of the packed format. -/
inductive DType where
  | uint8
  | int8
  | int16
  | int32
  | int64
  | float32
  | float64
  | uint16
  deriving DecidableEq, Repr

/-- The `dtypes` code table of `dataset.py`: dict lookup by dtype code,
`none` meaning a `KeyError`. -/
def dtypes : Nat → Option DType
  | 1 => some .uint8
  | 2 => some .int8
  | 3 => some .int16
  | 4 => some .int32
  | 5 => some .int64
  | 6 => some .float32
  | 7 => some .float64
  | 8 => some .uint16
  | _ => none

/-- Size in bytes of one element of each dtype (numpy itemsize). -/
def DType.itemsize : DType → Nat
  | .uint8 => 1
  | .int8 => 1
  | .int16 => 2
  | .int32 => 4
  | .int64 => 8
  | .float32 => 4
  | .float64 => 8
  | .uint16 => 2

/-- The bytes of the fixed magic marker `b"LITPKDS"`. -/
def HDR_MAGIC : List Nat := [76, 73, 84, 80, 75, 68, 83]

/-- Header size in bytes (`HDR_SIZE = 24`). -/
def HDR_SIZE : Nat := 24

/-- Value of a little-endian byte string (`struct.unpack("<Q", ...)` and
friends read bytes least-significant first). -/
def leVal (bs : List Nat) : Nat := bs.foldr (fun b acc => b + 256 * acc) 0

/-- Model of `io.BytesReader`: the underlying bytes and the read position. -/
structure BytesReader where
  data : List Nat
  pos : Nat
  deriving DecidableEq, Repr

/-- Read at most `n` bytes from the current position, advancing it by the
number of bytes actually read (as `BytesReader.read` does on short input). -/
def BytesReader.read (io : BytesReader) (n : Nat) : List Nat × BytesReader :=
  let bs := (io.data.drop io.pos).take n
  (bs, ⟨io.data, io.pos + bs.length⟩)

/-- Model of `BytesReader.seek` to an absolute position. -/
def BytesReader.seek (io : BytesReader) (p : Nat) : BytesReader := ⟨io.data, p⟩

/-- Read all remaining bytes from the current position. -/
def BytesReader.readAll (io : BytesReader) : List Nat := io.data.drop io.pos

/-- Header validation of `PackedDatasetIterator._read`, applied to the
full fetched byte content: check the 7-byte magic, the little-endian
64-bit version (must be `1`), look up the dtype code, read the chunk
element count, and return the dtype, the count and the reader positioned
after the header.  A short read makes `struct.unpack` fail, which (like
the failed asserts and the `KeyError`) is a `formatError` outcome. -/
def readHeader (content : List Nat) : Except PyError (DType × Nat × BytesReader) :=
  let io0 : BytesReader := ⟨content, 0⟩
  let (magic, io1) := io0.read HDR_MAGIC.length
  if magic ≠ HDR_MAGIC then .error .formatError else
  let (vb, io2) := io1.read 8
  if vb.length ≠ 8 then .error .formatError else
  if leVal vb ≠ 1 then .error .formatError else
  let (db, io3) := io2.read 1
  if db.length ≠ 1 then .error .formatError else
  match dtypes (db.headD 0) with
  | none => .error .formatError
  | some d =>
    let (cb, io4) := io3.read 8
    if cb.length ≠ 8 then .error .formatError else
    .ok (d, leVal cb, io4)

/-- Whether an `Except` value is a success. -/
def exceptOk {ε α : Type} : Except ε α → Bool
  | .ok _ => true
  | .error _ => false

/-- Step function of the linear-congruential generator used to model the
seeded pseudo-random collaborators (numpy's `default_rng` stream and
CPython's `random.Random`); 64-bit state. -/
def lcgStep (s : Nat) : Nat := (6364136223846793005 * s + 1442695040888963407) % 2 ^ 64

/-- Model of the external numpy collaborator `Generator.permutation`,
drawing one element at a time from what remains of the input list (a
Fisher-Yates-style extraction driven by `lcgStep`); returns the shuffled
list together with the advanced generator state.  Bit-exact replication
of numpy's PCG64 stream is out of scope; the model keeps the contract
the code relies on: a seeded, deterministic permutation of the input. -/
def fyExtract : Nat → List Nat → Nat → List Nat × Nat
  | 0, _, g => ([], g)
  | _ + 1, [], g => ([], g)
  | fuel + 1, x :: xs, g =>
    let g' := lcgStep g
    let j := g' % (x :: xs).length
    let y := (x :: xs).getD j x
    let rest := (x :: xs).eraseIdx j
    let (out, g'') := fyExtract fuel rest g'
    (y :: out, g'')

/-- Model of `rng.permutation n`: shuffle `range n`, thread the state. -/
def npPermutation (g n : Nat) : List Nat × Nat := fyExtract n (List.range n) g

/-- State of a `PackedDatasetIterator`.  Attributes that Python only
assigns once the first header has been parsed (`_dtype`, `_chunk_size`,
`_n_blocks`) are `Option`s; `rng` is `none` when shuffling is off
(`np.random.default_rng(seed) if shuffle else None`).  The `_mmaps`
list of the source is dead in this GCS port (never appended to) and is
not modelled. -/
structure PackedDatasetIterator where
  seed : Nat
  shuffle : Bool
  rng : Option Nat
  wrap : Bool
  filenames : List Nat
  fileIdx : Nat
  nChunks : Nat
  dtype : Option DType
  chunkSize : Option Nat
  blockSize : Nat
  nBlocks : Option Nat
  buffers : List (List Nat)
  blockIdxs : List Nat
  currIdx : Nat
  deriving DecidableEq, Repr

/-- One fetched file parsed by `PackedDatasetIterator._read`: compose the
byte-fetch collaborator with the header parser. -/
def readFile (fetch : Nat → List Nat) (path : Nat) : Except PyError (DType × Nat × BytesReader) :=
  readHeader (fetch path)

/-- The `for i in range(self._n_chunks)` loop of `_load_n_chunks`,
processing the file positions `base + i` for `i` from `nChunks - rem` up
to `nChunks - 1`.  Each iteration first indexes the filename list (an
`IndexError` when out of range), then — only while `_dtype` is still
unset — fetches and parses the file, after which it appends the bytes
past the header of the current `bytes_io` to the buffer list.  When
`_dtype` is already set, `bytes_io` has not been assigned in this call
(`none`), which is Python's `UnboundLocalError`. -/
def loadLoop (fetch : Nat → List Nat) (filenames : List Nat) (blockSize base : Nat) :
    Nat → Nat → Option DType → Option Nat → Option Nat → Option BytesReader →
    List (List Nat) → Except PyError (Option DType × Option Nat × Option Nat × List (List Nat))
  | _, 0, dt, cs, nb, _, bufs => .ok (dt, cs, nb, bufs)
  | i, rem + 1, dt, cs, nb, bio, bufs =>
    match filenames[base + i]? with
    | none => .error .indexError
    | some filename =>
      match dt with
      | none =>
        match readFile fetch filename with
        | .error e => .error e
        | .ok (d, size, bio') =>
          if blockSize = 0 then .error .zeroDivision else
          loadLoop fetch filenames blockSize base (i + 1) rem (some d) (some size)
            (some (size / blockSize)) (some bio')
            (bufs ++ [((bio'.seek HDR_SIZE).readAll)])
      | some _ =>
        match bio with
        | none => .error .unboundLocal
        | some b =>
          loadLoop fetch filenames blockSize base (i + 1) rem dt cs nb bio
            (bufs ++ [((b.seek HDR_SIZE).readAll)])

/-- Tail of `_load_n_chunks` after the cursor check: run the chunk loop
from the current file cursor, advance the cursor by `n_chunks`, compute
`n_all_blocks = n_chunks * n_blocks` (a `TypeError` when `_n_blocks` is
still `None`), install the block-index sequence (a fresh permutation
when shuffling, `range(n_all_blocks)` otherwise) and reset the in-window
cursor to `0`. -/
def loadCore (fetch : Nat → List Nat) (s : PackedDatasetIterator) :
    Except PyError PackedDatasetIterator :=
  match loadLoop fetch s.filenames s.blockSize s.fileIdx 0 s.nChunks s.dtype s.chunkSize
      s.nBlocks none [] with
  | .error e => .error e
  | .ok (dt, cs, nb, bufs) =>
    match nb with
    | none => .error .typeError
    | some nBlocks =>
      let nAll := s.nChunks * nBlocks
      if s.shuffle then
        match s.rng with
        | none => .error .typeError
        | some g =>
          let pg := npPermutation g nAll
          .ok { s with dtype := dt, chunkSize := cs, nBlocks := nb, buffers := bufs,
                       fileIdx := s.fileIdx + s.nChunks, blockIdxs := pg.1, currIdx := 0,
                       rng := some pg.2 }
      else
        .ok { s with dtype := dt, chunkSize := cs, nBlocks := nb, buffers := bufs,
                     fileIdx := s.fileIdx + s.nChunks, blockIdxs := List.range nAll,
                     currIdx := 0 }

/-- Embedding of `PackedDatasetIterator._load_n_chunks`: release the old
buffers, and if fewer than `n_chunks` files remain ahead of the file
cursor either signal end-of-shard (`StopIteration`, wrap disabled) or
reset the cursor to the start of the shard's file subset (wrap enabled);
then run the chunk loop. -/
def PackedDatasetIterator.loadNChunks (fetch : Nat → List Nat)
    (s : PackedDatasetIterator) : Except PyError PackedDatasetIterator :=
  let s0 := { s with buffers := ([] : List (List Nat)) }
  if s0.nChunks > s0.filenames.length - s0.fileIdx then
    if !s0.wrap then .error .endOfShard
    else loadCore fetch { s0 with fileIdx := 0 }
  else loadCore fetch s0

/-- Signed little-endian value of an `nbytes`-byte string (two's
complement), as numpy decodes `int8/int16/int32/int64` elements. -/
def sintOfLE (nbytes : Nat) (bs : List Nat) : Int :=
  let v := leVal bs
  if v < 2 ^ (8 * nbytes - 1) then (v : Int) else (v : Int) - 2 ^ (8 * nbytes)

/-- Conversion of one IEEE-754 float (given as its bit pattern, with
`expBits` exponent bits, `fracBits` fraction bits and exponent `bias`)
to a 64-bit integer, modelling `astype(np.int64)` on x86: truncation
toward zero, with NaN/infinity and out-of-range values mapped to
`-2^63` (the platform's saturation value; C leaves them undefined). -/
def floatBitsToInt64 (expBits fracBits bias bits : Nat) : Int :=
  let frac := bits % 2 ^ fracBits
  let ex := bits / 2 ^ fracBits % 2 ^ expBits
  let sign := bits / 2 ^ (fracBits + expBits) % 2
  if ex = 2 ^ expBits - 1 then -(2 ^ 63)
  else
    let mant : Nat := if ex = 0 then frac else frac + 2 ^ fracBits
    let e : Int := (if ex = 0 then 1 else (ex : Int)) - bias - fracBits
    let mag : Nat := if 0 ≤ e then mant * 2 ^ e.toNat else mant / 2 ^ (-e).toNat
    let r : Int := if sign = 1 then -(mag : Int) else (mag : Int)
    if r < -(2 ^ 63) ∨ 2 ^ 63 ≤ r then -(2 ^ 63) else r

/-- Decode the bytes of one element of dtype `d` and widen it to a
64-bit integer value, modelling `arr.astype(np.int64)` elementwise
(integer dtypes are exact; floats truncate toward zero). -/
def widenElem (d : DType) (bs : List Nat) : Int :=
  match d with
  | .uint8 => (leVal bs : Int)
  | .uint16 => (leVal bs : Int)
  | .int8 => sintOfLE 1 bs
  | .int16 => sintOfLE 2 bs
  | .int32 => sintOfLE 4 bs
  | .int64 => sintOfLE 8 bs
  | .float32 => floatBitsToInt64 8 23 127 (leVal bs)
  | .float64 => floatBitsToInt64 11 52 1023 (leVal bs)

/-- Model of `np.frombuffer(buffer, dtype, count, offset)` composed with
`astype(np.int64)`: `count` elements of `d` starting at byte `offset`;
`none` is the `ValueError` numpy raises when the buffer is too small. -/
def npFrombuffer (d : DType) (buf : List Nat) (count offset : Nat) : Option (List Int) :=
  if offset + count * d.itemsize ≤ buf.length then
    some ((List.range count).map fun k =>
      widenElem d ((buf.drop (offset + k * d.itemsize)).take d.itemsize))
  else none

/-- Embedding of `PackedDatasetIterator.__next__`: reload the window when
the permutation is exhausted, then take the next block index `b`, slice
`block_size` elements of the locked dtype from the buffer of chunk
`b // n_blocks` at element offset `(b % n_blocks) * block_size`, widen
to int64 and advance the in-window cursor.  `np.dtype(None)` (an unset
`_dtype`) defaults to `float64` in numpy. -/
def PackedDatasetIterator.next (fetch : Nat → List Nat) (s : PackedDatasetIterator) :
    Except PyError (List Int × PackedDatasetIterator) :=
  match (if s.currIdx ≥ s.blockIdxs.length then s.loadNChunks fetch else .ok s) with
  | .error e => .error e
  | .ok t =>
    match t.blockIdxs[t.currIdx]? with
    | none => .error .indexError
    | some b =>
      match t.nBlocks with
      | none => .error .typeError
      | some nb =>
        if nb = 0 then .error .zeroDivision else
        let chunkId := b / nb
        match t.buffers[chunkId]? with
        | none => .error .indexError
        | some buf =>
          let d := t.dtype.getD .float64
          let elemId := (b % nb) * t.blockSize
          let offset := d.itemsize * elemId
          match npFrombuffer d buf t.blockSize offset with
          | none => .error .valueError
          | some arr => .ok (arr, { t with currIdx := t.currIdx + 1 })

/-- Embedding of `PackedDatasetIterator.__init__`: the fresh state before
the constructor's `_load_n_chunks` call. -/
def initState (filenames : List Nat) (nChunks blockSize seed : Nat)
    (shuffle wrap : Bool) : PackedDatasetIterator :=
  { seed := seed, shuffle := shuffle,
    rng := if shuffle then some seed else none,
    wrap := wrap, filenames := filenames, fileIdx := 0, nChunks := nChunks,
    dtype := none, chunkSize := none, blockSize := blockSize, nBlocks := none,
    buffers := [], blockIdxs := [], currIdx := 0 }

/-- Construction of a `PackedDatasetIterator`: build the fresh state and
run the constructor's `_load_n_chunks` (which may raise). -/
def mkPackedDatasetIterator (fetch : Nat → List Nat) (filenames : List Nat)
    (nChunks blockSize seed : Nat) (shuffle wrap : Bool) :
    Except PyError PackedDatasetIterator :=
  (initState filenames nChunks blockSize seed shuffle wrap).loadNChunks fetch

/-- Indices selected by the Python slice `range(start, stop, step)` over
a list of length `n` (with `stop ≤ n` in all uses here), in order. -/
def pySliceIdx (n start stop step : Nat) : List Nat :=
  (List.range n).filter fun i => start ≤ i && i < stop && (i - start) % step == 0

/-- Python extended slice `l[start:stop:step]` for a nonnegative step. -/
def pySlice {α : Type} (l : List α) (start stop step : Nat) : List α :=
  (pySliceIdx l.length start stop step).filterMap fun i => l[i]?

/-- Configuration held by `PackedDataset.__init__`. -/
structure PackedDataset where
  filenames : List Nat
  nChunks : Nat
  blockSize : Nat
  seed : Nat := 12345
  shuffle : Bool := true
  wrap : Bool := false
  numProcesses : Nat := 1
  processRank : Nat := 0
  deriving DecidableEq, Repr

/-- Ambient worker identity, as returned by `get_worker_info()` when it
is not `None`. -/
structure WorkerInfo where
  numWorkers : Nat
  id : Nat
  deriving DecidableEq, Repr

/-- The `(num_shards, shard_id)` pair computed by `PackedDataset.__iter__`
from the ambient worker identity (`num_workers = 1`, `worker_id = 0`
when no worker info is available). -/
def PackedDataset.shardParams (ds : PackedDataset) (wi : Option WorkerInfo) : Nat × Nat :=
  let numWorkers := match wi with | some w => w.numWorkers | none => 1
  let workerId := match wi with | some w => w.id | none => 0
  (numWorkers * ds.numProcesses, ds.processRank * numWorkers + workerId)

/-- The shard's file subset computed by `PackedDataset.__iter__`:
`filenames[shard_id : max_num_files : num_shards]` with
`max_num_files = len(filenames) // num_shards * num_shards`. -/
def PackedDataset.iterFilenames (ds : PackedDataset) (wi : Option WorkerInfo) : List Nat :=
  let p := ds.shardParams wi
  pySlice ds.filenames p.2 (ds.filenames.length / p.1 * p.1) p.1

/-- Embedding of `PackedDataset.__iter__`: derive the shard, slice the
file list, construct the per-worker iterator. -/
def PackedDataset.iter (ds : PackedDataset) (wi : Option WorkerInfo)
    (fetch : Nat → List Nat) : Except PyError PackedDatasetIterator :=
  mkPackedDatasetIterator fetch (ds.iterFilenames wi) ds.nChunks ds.blockSize
    ds.seed ds.shuffle ds.wrap

/-- The `n`-th sample pulled from an iterator state (0-based): advance
through `n` successful `__next__` calls and return the `n`-th result. -/
def nthSample (fetch : Nat → List Nat) (s : PackedDatasetIterator) :
    Nat → Except PyError (List Int)
  | 0 =>
    match s.next fetch with
    | .error e => .error e
    | .ok (v, _) => .ok v
  | n + 1 =>
    match s.next fetch with
    | .error e => .error e
    | .ok (_, s') => nthSample fetch s' n

/-- Running cumulative sums of a weight list, as
`itertools.accumulate` produces inside CPython's `random.choices`. -/
def cumAcc : List ℚ → List ℚ
  | [] => []
  | w :: ws => w :: (cumAcc ws).map (w + ·)

/-- Model of one draw of CPython's `random.random()`: a rational in
`[0, 1)` derived from the 64-bit generator state, returned with the
advanced state.  Bit-exact Mersenne-Twister replication is out of
scope; the model keeps the contract the code relies on: a seeded,
deterministic value in the unit interval. -/
def randUnit (g : Nat) : ℚ × Nat :=
  let g' := lcgStep g
  (((g' % 2 ^ 53 : Nat) : ℚ) / 2 ^ 53, g')

/-- The `bisect.bisect` call of `random.choices`: least index `i < hi`
of `cum` with `x < cum[i]`, and `hi` when there is none. -/
def bisectIdx (cum : List ℚ) (x : ℚ) (hi : Nat) : Nat :=
  (cum.take hi).findIdx fun c => decide (x < c)

/-- State of a `CombinedDatasetIterator`: the spawned child iterators,
the per-source weights, and the seeded generator state. -/
structure CombinedDatasetIterator where
  datasets : List PackedDatasetIterator
  weights : List ℚ
  rng : Nat
  deriving DecidableEq, Repr

/-- Source index drawn by `self._rng.choices(self._datasets,
weights=self._weights, k=1)` in the current state, following CPython's
implementation: cumulative weights, one uniform draw scaled by the
total, and a bisection with high bound `len - 1`. -/
def CombinedDatasetIterator.choiceIdx (st : CombinedDatasetIterator) : Nat :=
  let cum := cumAcc st.weights
  let total := cum.getLastD 0
  bisectIdx cum ((randUnit st.rng).1 * total) (st.datasets.length - 1)

/-- Embedding of `CombinedDatasetIterator.__next__`: draw one source via
seeded weighted choice, pull exactly one sample from that source's
iterator, and return it; the other children are untouched.  CPython's
`choices` raises `ValueError` when the weight list length mismatches the
population or the total weight is not positive (an empty population
falls under the same error outcome). -/
def CombinedDatasetIterator.next (fetch : Nat → List Nat)
    (st : CombinedDatasetIterator) :
    Except PyError (List Int × CombinedDatasetIterator) :=
  if st.weights.length ≠ st.datasets.length then .error .valueError else
  let cum := cumAcc st.weights
  let total := cum.getLastD 0
  if total ≤ 0 then .error .valueError else
  let i := st.choiceIdx
  match st.datasets[i]? with
  | none => .error .indexError
  | some c =>
    match c.next fetch with
    | .error e => .error e
    | .ok (v, c') =>
      .ok (v, { st with datasets := st.datasets.set i c', rng := (randUnit st.rng).2 })

/-- Configuration held by `CombinedDataset.__init__`; `weights = none`
means the uniform default `[1/N] * N` is installed. -/
structure CombinedDataset where
  datasets : List PackedDataset
  seed : Nat
  weights : Option (List ℚ)
  deriving DecidableEq, Repr

/-- The effective weight list of a `CombinedDataset`: the configured
weights, or `[1 / n_datasets] * n_datasets` when none were given. -/
def CombinedDataset.effWeights (c : CombinedDataset) : List ℚ :=
  match c.weights with
  | some w => w
  | none => List.replicate c.datasets.length (1 / (c.datasets.length : ℚ))

/-- Embedding of `CombinedDataset.__iter__` /
`CombinedDatasetIterator.__init__`: spawn one child iterator per source
(each child constructor may raise) and seed the weighted-choice
generator. -/
def CombinedDataset.iter (c : CombinedDataset) (wi : Option WorkerInfo)
    (fetch : Nat → List Nat) : Except PyError CombinedDatasetIterator :=
  match c.datasets.mapM (fun d => d.iter wi fetch) with
  | .error e => .error e
  | .ok children => .ok { datasets := children, weights := c.effWeights, rng := c.seed }

/-- The `n`-th sample pulled from a combined iterator state (0-based). -/
def nthCombined (fetch : Nat → List Nat) (st : CombinedDatasetIterator) :
    Nat → Except PyError (List Int)
  | 0 =>
    match st.next fetch with
    | .error e => .error e
    | .ok (v, _) => .ok v
  | n + 1 =>
    match st.next fetch with
    | .error e => .error e
    | .ok (_, st') => nthCombined fetch st' n

/-- Eight little-endian bytes of a value (an encoder for `<Q`). -/
def le64 (v : Nat) : List Nat := (List.range 8).map fun i => v / 256 ^ i % 256

/-- A concrete well-formed packed file: magic, version 1, dtype code,
chunk element count, payload. -/
def mkFile (code cs : Nat) (payload : List Nat) : List Nat :=
  HDR_MAGIC ++ le64 1 ++ [code] ++ le64 cs ++ payload

/-- Concrete byte-fetch collaborator for the witnesses: file `p` is a
valid uint8 file with chunk element count 2 and payload
`[10 * p + 10, 10 * p + 11]`. -/
def demoFetch : Nat → List Nat := fun p => mkFile 1 2 [10 * p + 10, 10 * p + 11]

/-- In-window iterator state used to witness the `__next__` slicing
theorem: one uint8 chunk `[5]`, one block of size 1. -/
def c4state : PackedDatasetIterator :=
  { seed := 0, shuffle := false, rng := none, wrap := false, filenames := [],
    fileIdx := 0, nChunks := 1, dtype := some .uint8, chunkSize := some 1,
    blockSize := 1, nBlocks := some 1, buffers := [[5]], blockIdxs := [0],
    currIdx := 0 }

/-- Combined-iterator state used to witness the weighted-choice theorem:
two sources, weights `[1, 0]`. -/
def c7state : CombinedDatasetIterator :=
  { datasets := [c4state, c4state], weights := [1, 0], rng := 0 }

/-- Concrete `PackedDataset` configuration used in the determinism
witness. -/
def c8cfg : PackedDataset :=
  { filenames := [0, 1], nChunks := 2, blockSize := 1, seed := 3,
    shuffle := true, wrap := false, numProcesses := 1, processRank := 0 }

/-- The iterator spawned from `c8cfg` (total by construction: the spawn
succeeds on `demoFetch`). -/
def c8st : PackedDatasetIterator :=
  (c8cfg.iter none demoFetch).toOption.getD (initState [] 1 1 0 false false)

/-- Concrete `CombinedDataset` configuration used in the determinism
witness. -/
def c8comb : CombinedDataset := { datasets := [c8cfg], seed := 5, weights := none }

/-- The combined iterator spawned from `c8comb`. -/
def c8ct : CombinedDatasetIterator :=
  (c8comb.iter none demoFetch).toOption.getD { datasets := [], weights := [], rng := 0 }

/-- Fresh shuffling iterator state used in the window-reload witness. -/
def c6s : PackedDatasetIterator := initState [0, 1] 2 1 42 true false

/-- The state after the first window load of `c6s`. -/
def c6t : PackedDatasetIterator :=
  (c6s.loadNChunks demoFetch).toOption.getD c6s

/-- Removing the element at a valid index and re-consing it in front is a
permutation of the original list. -/
theorem cons_getD_eraseIdx_perm {α : Type} (d : α) :
    ∀ (l : List α) (j : Nat), j < l.length → (l.getD j d :: l.eraseIdx j).Perm l := by
  intro l
  induction l with
  | nil => intro j h; simp at h
  | cons x xs ih =>
    intro j h
    cases j with
    | zero => simp [List.getD]
    | succ m =>
      have hm : m < xs.length := by simpa using h
      have hperm := ih m hm
      have h1 : (xs.getD m d :: x :: xs.eraseIdx m).Perm
          (x :: xs.getD m d :: xs.eraseIdx m) := List.Perm.swap x (xs.getD m d) _
      exact h1.trans (hperm.cons x)

/-- The Fisher-Yates extraction returns a permutation of its input when
given enough fuel. -/
theorem fyExtract_perm : ∀ (fuel : Nat) (l : List Nat) (g : Nat),
    l.length ≤ fuel → ((fyExtract fuel l g).1).Perm l := by
  intro fuel
  induction fuel with
  | zero =>
    intro l g h
    have : l = [] := List.eq_nil_of_length_eq_zero (Nat.le_zero.mp h)
    subst this
    simp [fyExtract]
  | succ n ih =>
    intro l g h
    match l with
    | [] => simp [fyExtract]
    | x :: xs =>
      have hlen : (x :: xs).length ≠ 0 := by simp
      have hj : lcgStep g % (x :: xs).length < (x :: xs).length :=
        Nat.mod_lt _ (Nat.pos_of_ne_zero hlen)
      have herase : ((x :: xs).eraseIdx (lcgStep g % (x :: xs).length)).length ≤ n := by
        have := List.length_eraseIdx_add_one hj
        omega
      have hperm := ih ((x :: xs).eraseIdx (lcgStep g % (x :: xs).length)) (lcgStep g) herase
      have hcons := cons_getD_eraseIdx_perm x (x :: xs) (lcgStep g % (x :: xs).length) hj
      show ((x :: xs).getD (lcgStep g % (x :: xs).length) x ::
        (fyExtract n ((x :: xs).eraseIdx (lcgStep g % (x :: xs).length)) (lcgStep g)).1).Perm _
      exact (hperm.cons _).trans hcons

/-- The modelled `rng.permutation n` is a permutation of `range n`. -/
theorem npPermutation_perm (g n : Nat) : ((npPermutation g n).1).Perm (List.range n) :=
  fyExtract_perm n (List.range n) g (by simp)

/-- Default of the head of a one-element prefix equals the default of the
head of the list itself. -/
theorem headD_take_one {α : Type} (d : α) (xs : List α) :
    (xs.take 1).headD d = xs.headD d := by
  cases xs <;> rfl

/-- Head of a dropped list, with default, is the positional lookup. -/
theorem headD_drop {α : Type} (d : α) (l : List α) :
    ∀ n, (l.drop n).headD d = l.getD n d := by
  induction l with
  | nil => intro n; cases n <;> rfl
  | cons x xs ih =>
    intro n
    cases n with
    | zero => rfl
    | succ m => simp [ih m]

/-- Looking up every position of a list in order reassembles the list. -/
theorem filterMap_getElem_range {α : Type} (l : List α) :
    (List.range l.length).filterMap (fun i => l[i]?) = l := by
  induction l with
  | nil => rfl
  | cons x xs ih =>
    rw [List.length_cons, List.range_succ_eq_map, List.filterMap_cons]
    simp only [List.getElem?_cons_zero, List.filterMap_map, Function.comp_def,
      List.getElem?_cons_succ]
    exact congrArg (x :: ·) ih

/-- A full stride-1 Python slice of a whole list is the list itself. -/
theorem pySlice_full {α : Type} (l : List α) :
    pySlice l 0 l.length 1 = l := by
  unfold pySlice pySliceIdx
  have hf : ∀ i ∈ List.range l.length,
      (decide (0 ≤ i) && decide (i < l.length) && ((i - 0) % 1 == 0)) = true := by
    intro i hi
    simp [List.mem_range.mp hi, Nat.mod_one]
  rw [List.filter_eq_self.mpr hf]
  exact filterMap_getElem_range l

/-- Closed form of the header parser on an input decomposed into its
magic, version, dtype-code and count regions followed by the payload
(every input of at least `HDR_SIZE` bytes decomposes this way): the
parser checks the magic bytes, the version value and the dtype code in
order, and on success returns the dtype, the count value and the reader
at position 24. -/
theorem readHeader_append (m v : List Nat) (c : Nat) (s rest : List Nat)
    (hm : m.length = 7) (hv : v.length = 8) (hs : s.length = 8) :
    readHeader (m ++ (v ++ (c :: (s ++ rest)))) =
      (if m ≠ HDR_MAGIC then .error .formatError else
       if leVal v ≠ 1 then .error .formatError else
       match dtypes c with
       | none => .error .formatError
       | some d => .ok (d, leVal s, ⟨m ++ (v ++ (c :: (s ++ rest))), 24⟩)) := by
  have h7 : HDR_MAGIC.length = 7 := by decide
  have t1 : (m ++ (v ++ (c :: (s ++ rest)))).take 7 = m := List.take_left' hm
  have t2 : (m ++ (v ++ (c :: (s ++ rest)))).drop 7 = v ++ (c :: (s ++ rest)) :=
    List.drop_left' hm
  have t3 : (v ++ (c :: (s ++ rest))).take 8 = v := List.take_left' hv
  have t4 : (m ++ (v ++ (c :: (s ++ rest)))).drop 15 = c :: (s ++ rest) := by
    rw [← List.append_assoc]
    exact List.drop_left' (by simp [hm, hv])
  have t6 : (m ++ (v ++ (c :: (s ++ rest)))).drop 16 = s ++ rest := by
    have hre : (((m ++ v) ++ [c]) ++ (s ++ rest)) = m ++ (v ++ (c :: (s ++ rest))) := by
      simp
    rw [← hre]
    exact List.drop_left' (by simp [hm, hv])
  have t7 : (s ++ rest).take 8 = s := List.take_left' hs
  unfold readHeader
  simp only [BytesReader.read, List.drop_zero, h7, t1, hm, Nat.zero_add, t2, t3, hv]
  rw [show (7 : Nat) + 8 = 15 from rfl]
  have t5 : List.take 1 (c :: (s ++ rest)) = [c] := rfl
  have t5l : ([c] : List Nat).length = 1 := rfl
  simp only [t4, t5, t5l]
  rw [show (15 : Nat) + 1 = 16 from rfl]
  simp only [t6, t7, hs]
  rw [show (16 : Nat) + 8 = 24 from rfl]
  by_cases hmag : m = HDR_MAGIC
  · simp only [hmag, if_neg (by simp : ¬(HDR_MAGIC ≠ HDR_MAGIC))]
    by_cases hver : leVal v = 1
    · simp only [if_neg (by simp [hver] : ¬(leVal v ≠ 1))]
      cases hdt : dtypes (([c] : List Nat).headD 0) with
      | none => simp only [List.headD] at hdt; simp [hdt]
      | some d => simp only [List.headD] at hdt; simp [hdt]
    · simp [hver]
  · simp [hmag]

/-- The dtype-code table accepts exactly the codes 1 through 8. -/
theorem dtypes_isSome (c : Nat) : (dtypes c).isSome = true ↔ 1 ≤ c ∧ c ≤ 8 := by
  rcases c with _|_|_|_|_|_|_|_|_|n <;> simp [dtypes]

/-- C5: header parsing fails iff the 7 magic bytes mismatch, the
little-endian 64-bit version is not 1, or the dtype code byte is not one
of the 8 recognized codes; on success it returns the looked-up dtype,
the little-endian chunk element count, and the reader at position
`HDR_SIZE = 24`, immediately after the 24-byte header. -/
theorem readHeader_spec (m v : List Nat) (c : Nat) (s rest : List Nat)
    (hm : m.length = 7) (hv : v.length = 8) (hs : s.length = 8) :
    (exceptOk (readHeader (m ++ (v ++ (c :: (s ++ rest))))) = true ↔
       (m = HDR_MAGIC ∧ leVal v = 1 ∧ 1 ≤ c ∧ c ≤ 8))
  ∧ (∀ d cs io, readHeader (m ++ (v ++ (c :: (s ++ rest)))) = .ok (d, cs, io) →
       dtypes c = some d ∧ cs = leVal s ∧
       io.data = m ++ (v ++ (c :: (s ++ rest))) ∧ io.pos = HDR_SIZE) := by
  have heq := readHeader_append m v c s rest hm hv hs
  constructor
  · rw [heq]
    by_cases h1 : m = HDR_MAGIC
    · by_cases h2 : leVal v = 1
      · cases hdt : dtypes c with
        | none =>
          have hnc : ¬(1 ≤ c ∧ c ≤ 8) := by
            intro hc
            have hsome := (dtypes_isSome c).mpr hc
            rw [hdt] at hsome
            simp at hsome
          simp [exceptOk, hdt, h1, h2, hnc]
        | some d =>
          have hc := (dtypes_isSome c).mp (by rw [hdt]; rfl)
          simp [exceptOk, hdt, h1, h2, hc]
      · simp [exceptOk, h1, h2]
    · simp [exceptOk, h1]
  · intro d cs io h
    rw [heq] at h
    by_cases h1 : m = HDR_MAGIC
    · by_cases h2 : leVal v = 1
      · rw [if_neg (by simp [h1]), if_neg (by simp [h2])] at h
        cases hdt : dtypes c with
        | none => rw [hdt] at h; cases h
        | some d' =>
          rw [hdt] at h
          have hinj := h
          simp only [Except.ok.injEq, Prod.mk.injEq] at hinj
          obtain ⟨hd', hcs, hio⟩ := hinj
          refine ⟨congrArg some hd', hcs.symm, ?_, ?_⟩
          · rw [← hio]
          · rw [← hio]
            rfl
      · rw [if_neg (by simp [h1]), if_pos (by simp [h2])] at h
        cases h
    · rw [if_pos (by simp [h1])] at h
      cases h

/-- Witness for the header-parsing theorem at a concrete valid input. -/
theorem readHeader_spec_witness :
    exceptOk (readHeader (HDR_MAGIC ++ (le64 1 ++ (1 :: (le64 2 ++ [9, 9]))))) = true ↔
      (HDR_MAGIC = HDR_MAGIC ∧ leVal (le64 1) = 1 ∧ 1 ≤ 1 ∧ 1 ≤ 8) :=
  (readHeader_spec HDR_MAGIC (le64 1) 1 (le64 2) [9, 9]
    (by decide) (by decide) (by decide)).1

/-- C10: with no ambient worker identity, spawning behaves as a single
worker per process: `num_shards = num_processes` and
`shard_id = process_rank`; with one process (rank 0) the sole iterator
receives the full file list. -/
theorem iter_no_worker_info (ds : PackedDataset) :
    ds.shardParams none = (ds.numProcesses, ds.processRank)
  ∧ (ds.numProcesses = 1 → ds.processRank = 0 → ds.iterFilenames none = ds.filenames) := by
  constructor
  · unfold PackedDataset.shardParams
    simp
  · intro h1 h0
    unfold PackedDataset.iterFilenames PackedDataset.shardParams
    simp only [h1, h0, Nat.one_mul, Nat.mul_one, Nat.zero_mul, Nat.zero_add, Nat.div_one]
    exact pySlice_full ds.filenames

/-- Witness for the no-worker-identity theorem at a concrete dataset. -/
theorem iter_no_worker_info_witness :
    PackedDataset.iterFilenames
        { filenames := [3, 4, 5], nChunks := 1, blockSize := 1 } none = [3, 4, 5] :=
  (iter_no_worker_info { filenames := [3, 4, 5], nChunks := 1, blockSize := 1 }).2 rfl rfl

/-- Membership in a shard's strided index slice: exactly the indices
below the truncation bound whose residue modulo `num_shards` equals the
shard id. -/
theorem mem_shard_slice (n s k : Nat) (hk : k < s) (i : Nat) :
    i ∈ pySliceIdx n k (n / s * s) s ↔ i < n / s * s ∧ i % s = k := by
  have hs0 : 0 < s := Nat.lt_of_le_of_lt (Nat.zero_le k) hk
  unfold pySliceIdx
  rw [List.mem_filter, List.mem_range]
  simp only [Bool.and_eq_true, decide_eq_true_eq, beq_iff_eq]
  constructor
  · rintro ⟨hn, ⟨⟨hki, hlt⟩, hmod⟩⟩
    refine ⟨hlt, ?_⟩
    have hdvd : s ∣ i - k := Nat.dvd_of_mod_eq_zero hmod
    have hme : k ≡ i [MOD s] := (Nat.modEq_iff_dvd' hki).mpr hdvd
    calc i % s = k % s := hme.symm
      _ = k := Nat.mod_eq_of_lt hk
  · rintro ⟨hlt, hmod⟩
    have hn : i < n := Nat.lt_of_lt_of_le hlt (Nat.div_mul_le_self n s)
    have hki : k ≤ i := by
      rw [← hmod]
      exact Nat.mod_le i s
    refine ⟨hn, ⟨⟨hki, hlt⟩, ?_⟩⟩
    have hme : k ≡ i [MOD s] := by
      show k % s = i % s
      rw [hmod, Nat.mod_eq_of_lt hk]
    obtain ⟨t, ht⟩ := (Nat.modEq_iff_dvd' hki).mp hme
    rw [ht, Nat.mul_mod_right]

/-- Each shard's index slice has exactly `n / num_shards` entries. -/
theorem shard_slice_length (n s k : Nat) (hk : k < s) :
    (pySliceIdx n k (n / s * s) s).length = n / s := by
  have hs0 : 0 < s := Nat.lt_of_le_of_lt (Nat.zero_le k) hk
  have hnd : (pySliceIdx n k (n / s * s) s).Nodup :=
    (List.nodup_range n).filter _
  rw [← List.toFinset_card_of_nodup hnd]
  have hset : (pySliceIdx n k (n / s * s) s).toFinset
      = (Finset.range (n / s * s)).filter (fun i => i % s = k) := by
    apply Finset.ext
    intro i
    rw [List.mem_toFinset, mem_shard_slice n s k hk, Finset.mem_filter, Finset.mem_range]
  have hbij : ((Finset.range (n / s * s)).filter (fun i => i % s = k)).card
      = (Finset.range (n / s)).card := by
    apply Finset.card_nbij' (fun a => a / s) (fun b => b * s + k)
    · intro a ha
      rw [Finset.mem_filter, Finset.mem_range] at ha
      rw [Finset.mem_range]
      exact (Nat.div_lt_iff_lt_mul hs0).mpr ha.1
    · intro b hb
      rw [Finset.mem_range] at hb
      rw [Finset.mem_filter, Finset.mem_range]
      constructor
      · have h1 : b * s + k < b * s + s := Nat.add_lt_add_left hk (b * s)
        have h2 : b * s + s = (b + 1) * s := (Nat.succ_mul b s).symm
        have h3 : (b + 1) * s ≤ n / s * s :=
          Nat.mul_le_mul_right s (Nat.succ_le_of_lt hb)
        omega
      · rw [Nat.add_comm, Nat.add_mul_mod_self_right]
        exact Nat.mod_eq_of_lt hk
    · intro a ha
      rw [Finset.mem_filter] at ha
      calc a / s * s + k = s * (a / s) + a % s := by rw [Nat.mul_comm, ha.2]
        _ = a := Nat.div_add_mod a s
    · intro b hb
      rw [Nat.add_comm, Nat.add_mul_div_right k b hs0, Nat.div_eq_of_lt hk, Nat.zero_add]
  rw [hset, hbij, Finset.card_range]

/-- C2: sharding invariants of `PackedDataset.__iter__`.  The file subset
of shard `k` is the strided slice over the shard's index set; the index
sets of distinct shards are disjoint; the union of all shards' index
sets is exactly the indices below `floor(len/num_shards) * num_shards`
(so trailing files beyond that bound belong to no shard); each shard
holds `floor(len/num_shards)` files and together they hold
`floor(len/num_shards) * num_shards`. -/
theorem shard_partition (n s : Nat) (hs : 1 ≤ s) :
    (∀ (l : List Nat) (k : Nat), l.length = n →
       pySlice l k (n / s * s) s = (pySliceIdx n k (n / s * s) s).filterMap fun i => l[i]?)
  ∧ (∀ k, k < s → ∀ i, i ∈ pySliceIdx n k (n / s * s) s ↔ i < n / s * s ∧ i % s = k)
  ∧ (∀ k₁ k₂, k₁ < s → k₂ < s → k₁ ≠ k₂ → ∀ i,
       i ∈ pySliceIdx n k₁ (n / s * s) s → i ∉ pySliceIdx n k₂ (n / s * s) s)
  ∧ (∀ i, (∃ k, k < s ∧ i ∈ pySliceIdx n k (n / s * s) s) ↔ i < n / s * s)
  ∧ (∀ k, k < s → (pySliceIdx n k (n / s * s) s).length = n / s)
  ∧ Finset.sum (Finset.range s) (fun k => (pySliceIdx n k (n / s * s) s).length)
      = n / s * s := by
  refine ⟨?_, ?_, ?_, ?_, ?_, ?_⟩
  · intro l k hl
    unfold pySlice
    rw [hl]
  · intro k hk i
    exact mem_shard_slice n s k hk i
  · intro k₁ k₂ hk₁ hk₂ hne i h1 h2
    rw [mem_shard_slice n s k₁ hk₁] at h1
    rw [mem_shard_slice n s k₂ hk₂] at h2
    exact hne (h1.2.symm.trans h2.2)
  · intro i
    constructor
    · rintro ⟨k, hk, hmem⟩
      exact ((mem_shard_slice n s k hk i).mp hmem).1
    · intro hi
      refine ⟨i % s, Nat.mod_lt i hs, ?_⟩
      rw [mem_shard_slice n s (i % s) (Nat.mod_lt i hs) i]
      exact ⟨hi, rfl⟩
  · intro k hk
    exact shard_slice_length n s k hk
  · rw [Finset.sum_congr rfl fun k hk => shard_slice_length n s k (Finset.mem_range.mp hk)]
    rw [Finset.sum_const, Finset.card_range, smul_eq_mul, Nat.mul_comm]

/-- Witness for the sharding theorem at `n = 5`, `num_shards = 2`. -/
theorem shard_partition_witness :
    (3 ∈ pySliceIdx 5 1 (5 / 2 * 2) 2 ↔ 3 < 5 / 2 * 2 ∧ 3 % 2 = 1)
  ∧ Finset.sum (Finset.range 2) (fun k => (pySliceIdx 5 k (5 / 2 * 2) 2).length)
      = 5 / 2 * 2 :=
  ⟨(shard_partition 5 2 (by decide)).2.1 1 (by decide) 3,
   (shard_partition 5 2 (by decide)).2.2.2.2.2⟩

/-- C1: evaluation of the first window load on a two-file shard with
distinct payloads.  The load succeeds and advances the file cursor by
`n_chunks`, but both retained buffers are file 0's payload — file 1 is
never fetched (its payload is `[20, 21]`, which appears in no buffer),
because `_read` is only invoked while `_dtype` is still unset. -/
theorem first_load_duplicates_first_file :
    (mkPackedDatasetIterator demoFetch [0, 1] 2 1 0 false false).map
        (fun s => (s.buffers, s.fileIdx)) = .ok ([[10, 11], [10, 11]], 2)
  ∧ (demoFetch 1).drop HDR_SIZE = [20, 21] :=
  ⟨rfl, rfl⟩

/-- C3: evaluation of the end-to-end scenario (4 shard files,
`n_chunks = 2`, `wrap = false`).  The first window load succeeds, but
the second raises `UnboundLocalError` (files past the first are never
fetched, and `bytes_io` is unbound on re-entry into `_load_n_chunks`),
so the iterator never reaches a third load attempt that would signal
end-of-shard. -/
theorem second_reload_unbound_local :
    Except.bind (mkPackedDatasetIterator demoFetch [0, 1, 2, 3] 2 1 0 false false)
        (fun s => s.loadNChunks demoFetch) = .error .unboundLocal
  ∧ mkPackedDatasetIterator demoFetch [0, 1] 4 1 0 false false = .error .endOfShard :=
  ⟨rfl, rfl⟩

/-- Once the dtype is locked, the chunk loop never fetches, and fails
with `IndexError` as soon as its iteration range extends past the end
of the file list. -/
theorem loadLoop_locked_oob (fetch : Nat → List Nat) (filenames : List Nat)
    (blockSize : Nat) (d : DType) (cs nb : Option Nat) (b : BytesReader) :
    ∀ rem i bufs, i ≤ filenames.length → filenames.length < i + rem →
      loadLoop fetch filenames blockSize 0 i rem (some d) cs nb (some b) bufs
        = .error .indexError := by
  intro rem
  induction rem with
  | zero => intro i bufs hle hlt; omega
  | succ r ih =>
    intro i bufs hle hlt
    rcases Nat.lt_or_ge i filenames.length with h2 | h2
    · have hf : filenames[0 + i]? = some filenames[i] := by
        rw [Nat.zero_add]
        exact List.getElem?_eq_getElem h2
      simp only [loadLoop, hf]
      exact ih (i + 1) _ h2 (by omega)
    · have hf : filenames[0 + i]? = none := by
        rw [Nat.zero_add]
        exact List.getElem?_eq_none h2
      simp only [loadLoop, hf]

/-- A fresh chunk loop over well-formed files fails with `IndexError`
when asked for more chunks than the file list holds. -/
theorem loadLoop_fresh_short (fetch : Nat → List Nat) (filenames : List Nat)
    (blockSize : Nat) (hbs : blockSize ≠ 0)
    (hvalid : ∀ f ∈ filenames, exceptOk (readFile fetch f) = true)
    (cs nb : Option Nat) :
    ∀ rem bufs, filenames.length < rem →
      loadLoop fetch filenames blockSize 0 0 rem none cs nb none bufs
        = .error .indexError := by
  intro rem bufs hlt
  cases rem with
  | zero => omega
  | succ r =>
    cases hfn : filenames with
    | nil =>
      subst hfn
      simp [loadLoop]
    | cons f rest =>
      subst hfn
      have hmem : f ∈ f :: rest := List.mem_cons_self f rest
      have hf : (f :: rest)[0 + 0]? = some f := by simp
      cases hread : readFile fetch f with
      | error e =>
        have hcontr := hvalid f hmem
        rw [hread] at hcontr
        simp [exceptOk] at hcontr
      | ok res =>
        obtain ⟨d, size, bio'⟩ := res
        simp only [loadLoop, hf, hread]
        rw [if_neg hbs]
        apply loadLoop_locked_oob
        · simp
        · simp only [List.length_cons] at hlt ⊢
          omega

/-- C9: with wrap enabled and fewer shard files than `n_chunks` (an
empty shard included), a fresh window load resets the file cursor to 0
and then indexes past the end of the file list — an `IndexError`, not
an end-of-shard signal and not a loaded window. -/
theorem wrap_short_shard_index_error (fetch : Nat → List Nat) (filenames : List Nat)
    (nChunks blockSize seed : Nat) (shuffle : Bool)
    (hshort : filenames.length < nChunks) (hbs : blockSize ≠ 0)
    (hvalid : ∀ f ∈ filenames, exceptOk (readFile fetch f) = true) :
    mkPackedDatasetIterator fetch filenames nChunks blockSize seed shuffle true
      = .error .indexError := by
  unfold mkPackedDatasetIterator PackedDatasetIterator.loadNChunks initState
  simp only
  rw [if_pos (by simp; omega)]
  simp only [Bool.not_true, Bool.false_eq_true, if_false]
  unfold loadCore
  simp only
  rw [loadLoop_fresh_short fetch filenames blockSize hbs hvalid none none nChunks [] hshort]

/-- Witness for the short-wrap-shard theorem at an empty shard. -/
theorem wrap_short_shard_index_error_witness :
    mkPackedDatasetIterator demoFetch [] 1 1 0 false true = .error .indexError :=
  wrap_short_shard_index_error demoFetch [] 1 1 0 false (by decide) (by decide)
    (by intro f hf; cases hf)

/-- What a successful run of the tail of `_load_n_chunks` establishes:
`n_blocks` is set, the block-index sequence has length
`n_chunks * n_blocks`, covers exactly the indices below it, holds no
duplicates, is `range(n_all_blocks)` when shuffling is off, and the
in-window cursor is reset to 0. -/
theorem loadCore_spec (fetch : Nat → List Nat) (u t : PackedDatasetIterator)
    (h : loadCore fetch u = .ok t) :
    t.nChunks = u.nChunks ∧ t.shuffle = u.shuffle
  ∧ (∃ nb, t.nBlocks = some nb)
  ∧ t.blockIdxs.length = t.nChunks * t.nBlocks.getD 0
  ∧ (∀ j, j ∈ t.blockIdxs ↔ j < t.nChunks * t.nBlocks.getD 0)
  ∧ t.blockIdxs.Nodup
  ∧ (u.shuffle = false → t.blockIdxs = List.range (t.nChunks * t.nBlocks.getD 0))
  ∧ t.currIdx = 0 := by
  unfold loadCore at h
  split at h
  next e heq => cases h
  next dt cs nb bufs heq =>
    split at h
    next => cases h
    next nBlocks =>
      split at h
      next hsh =>
        split at h
        next => cases h
        next g hg =>
          cases h
          have hperm := npPermutation_perm g (u.nChunks * nBlocks)
          refine ⟨rfl, rfl, ⟨nBlocks, rfl⟩, ?_, ?_, ?_, ?_, rfl⟩
          · exact hperm.length_eq.trans (List.length_range _)
          · intro j
            exact hperm.mem_iff.trans List.mem_range
          · exact hperm.nodup_iff.mpr (List.nodup_range _)
          · intro habs
            rw [habs] at hsh
            cases hsh
      next hsh =>
        cases h
        refine ⟨rfl, rfl, ⟨nBlocks, rfl⟩, ?_, ?_, ?_, ?_, rfl⟩
        · exact List.length_range _
        · intro j
          exact List.mem_range
        · exact List.nodup_range _
        · intro _
          rfl

/-- C6: after every window (re)load that completes, the block-index
sequence has length `n_chunks * n_blocks`, covers
`[0, n_chunks * n_blocks)` with each index exactly once, equals the
sequential `range(n_all_blocks)` when shuffling is disabled (when
enabled it comes as a permutation from the iterator's threaded
generator), and the in-window cursor is reset to 0. -/
theorem load_installs_block_permutation (fetch : Nat → List Nat)
    (s t : PackedDatasetIterator) (h : s.loadNChunks fetch = .ok t) :
    t.blockIdxs.length = t.nChunks * t.nBlocks.getD 0
  ∧ (∀ j, j ∈ t.blockIdxs ↔ j < t.nChunks * t.nBlocks.getD 0)
  ∧ t.blockIdxs.Nodup
  ∧ (s.shuffle = false → t.blockIdxs = List.range (t.nChunks * t.nBlocks.getD 0))
  ∧ t.currIdx = 0 := by
  unfold PackedDatasetIterator.loadNChunks at h
  simp only at h
  by_cases hg : s.nChunks > s.filenames.length - s.fileIdx
  · rw [if_pos hg] at h
    by_cases hw : s.wrap
    · rw [hw] at h
      simp only [Bool.not_true, Bool.false_eq_true, if_false] at h
      have hc := loadCore_spec fetch _ t h
      exact ⟨hc.2.2.2.1, hc.2.2.2.2.1, hc.2.2.2.2.2.1, hc.2.2.2.2.2.2.1, hc.2.2.2.2.2.2.2⟩
    · simp only [Bool.not_eq_true] at hw
      rw [hw] at h
      simp only [Bool.not_false, if_true] at h
      cases h
  · rw [if_neg hg] at h
    have hc := loadCore_spec fetch _ t h
    exact ⟨hc.2.2.2.1, hc.2.2.2.2.1, hc.2.2.2.2.2.1, hc.2.2.2.2.2.2.1, hc.2.2.2.2.2.2.2⟩

/-- Witness for the window-load theorem: the first (shuffled) load of a
two-file shard with two blocks per chunk. -/
theorem load_installs_block_permutation_witness :
    c6t.currIdx = 0 ∧ c6t.blockIdxs.Nodup
  ∧ (3 ∈ c6t.blockIdxs ↔ 3 < c6t.nChunks * c6t.nBlocks.getD 0) := by
  have h := load_installs_block_permutation demoFetch c6s c6t rfl
  exact ⟨h.2.2.2.2, h.2.2.1, h.2.1 3⟩

/-- C4: a `__next__` call served from the current window (the in-window
cursor has not exhausted the block-index sequence, so no reload and no
end-of-shard is triggered) takes the next block index `b` and returns
exactly `block_size` contiguous elements of the locked dtype from the
buffer of chunk `b // n_blocks`, starting at element offset
`(b % n_blocks) * block_size`, each widened to a 64-bit integer; the
only state change is the in-window cursor advancing by exactly 1. -/
theorem next_in_window (fetch : Nat → List Nat) (s : PackedDatasetIterator)
    (b nb : Nat) (d : DType) (buf : List Nat)
    (hcur : s.currIdx < s.blockIdxs.length)
    (hb : s.blockIdxs[s.currIdx]? = some b)
    (hnb : s.nBlocks = some nb) (hnb0 : nb ≠ 0)
    (hd : s.dtype = some d)
    (hbuf : s.buffers[b / nb]? = some buf)
    (hlen : d.itemsize * ((b % nb) * s.blockSize) + s.blockSize * d.itemsize
      ≤ buf.length) :
    ∃ arr : List Int,
      s.next fetch = .ok (arr, { s with currIdx := s.currIdx + 1 })
      ∧ arr.length = s.blockSize
      ∧ ∀ k, k < s.blockSize →
          arr[k]? = some (widenElem d
            ((buf.drop (d.itemsize * ((b % nb) * s.blockSize + k))).take d.itemsize)) := by
  refine ⟨(List.range s.blockSize).map (fun k =>
    widenElem d ((buf.drop (d.itemsize * ((b % nb) * s.blockSize) + k * d.itemsize)).take
      d.itemsize)), ?_, ?_, ?_⟩
  · unfold PackedDatasetIterator.next
    rw [if_neg (by omega : ¬ s.currIdx ≥ s.blockIdxs.length)]
    simp only [hb, hnb, hbuf, hd, Option.getD_some, npFrombuffer, if_neg hnb0]
    rw [if_pos (by omega)]
  · simp
  · intro k hk
    rw [List.getElem?_map, List.getElem?_range hk]
    have harith : d.itemsize * ((b % nb) * s.blockSize) + k * d.itemsize
        = d.itemsize * ((b % nb) * s.blockSize + k) := by
      rw [Nat.mul_add, Nat.mul_comm k d.itemsize]
    simp [harith]

/-- Witness for the in-window `__next__` theorem at a one-block window. -/
theorem next_in_window_witness :
    ∃ arr : List Int,
      c4state.next demoFetch = .ok (arr, { c4state with currIdx := c4state.currIdx + 1 })
      ∧ arr.length = c4state.blockSize
      ∧ ∀ k, k < c4state.blockSize →
          arr[k]? = some (widenElem .uint8
            ((([5] : List Nat).drop (DType.itemsize .uint8 * ((0 % 1) * c4state.blockSize + k))).take
              (DType.itemsize .uint8))) :=
  next_in_window demoFetch c4state 0 1 .uint8 [5] (by decide) (by decide) rfl
    (by decide) rfl rfl (by decide)

/-- Cumulative sums preserve the length of the weight list. -/
theorem cumAcc_length (ws : List ℚ) : (cumAcc ws).length = ws.length := by
  induction ws with
  | nil => rfl
  | cons w ws ih => simp [cumAcc, ih]

/-- The modelled uniform draw is below one. -/
theorem randUnit_lt_one (g : Nat) : (randUnit g).1 < 1 := by
  unfold randUnit
  simp only
  rw [div_lt_one (by positivity)]
  have h : lcgStep g % 2 ^ 53 < 2 ^ 53 := Nat.mod_lt _ (by positivity)
  exact_mod_cast h

/-- The modelled uniform draw is nonnegative. -/
theorem randUnit_nonneg (g : Nat) : 0 ≤ (randUnit g).1 := by
  unfold randUnit
  positivity

/-- C7: one `__next__` call of the combinator draws exactly one source
index (in range), pulls exactly one sample from that source's iterator —
propagating its outcome verbatim — and leaves every other source's
iterator untouched; with weights `[1, 0]` the drawn index is always 0;
and a `CombinedDataset` built without weights installs the uniform
default `[1/N] * N`. -/
theorem combined_next_one_source (fetch : Nat → List Nat)
    (st : CombinedDatasetIterator)
    (hlen : st.weights.length = st.datasets.length)
    (hpos : 0 < (cumAcc st.weights).getLastD 0) :
    st.choiceIdx < st.datasets.length
  ∧ (∀ c, st.datasets[st.choiceIdx]? = some c →
      (∀ e, c.next fetch = .error e → st.next fetch = .error e)
      ∧ (∀ v c', c.next fetch = .ok (v, c') →
          st.next fetch = .ok (v,
            { st with datasets := st.datasets.set st.choiceIdx c',
                      rng := (randUnit st.rng).2 })
          ∧ ∀ j, j ≠ st.choiceIdx →
              (st.datasets.set st.choiceIdx c')[j]? = st.datasets[j]?))
  ∧ (st.weights = [1, 0] → st.choiceIdx = 0)
  ∧ (∀ cd : CombinedDataset, cd.weights = none →
      cd.effWeights = List.replicate cd.datasets.length (1 / (cd.datasets.length : ℚ))) := by
  have hne : st.weights ≠ [] := by
    intro habs
    rw [habs] at hpos
    simp [cumAcc] at hpos
  have hlen1 : 1 ≤ st.datasets.length := by
    rw [← hlen]
    cases hw : st.weights with
    | nil => exact absurd hw hne
    | cons w ws => simp
  have hidx : st.choiceIdx < st.datasets.length := by
    have h1 : (((cumAcc st.weights).take (st.datasets.length - 1)).findIdx
        (fun c => decide ((randUnit st.rng).1 * (cumAcc st.weights).getLastD 0 < c)))
        ≤ ((cumAcc st.weights).take (st.datasets.length - 1)).length :=
      List.findIdx_le_length _
    have h2 : ((cumAcc st.weights).take (st.datasets.length - 1)).length
        = st.datasets.length - 1 := by
      rw [List.length_take, cumAcc_length, hlen]
      omega
    unfold CombinedDatasetIterator.choiceIdx bisectIdx
    simp only
    omega
  refine ⟨hidx, ?_, ?_, ?_⟩
  · intro c hc
    have hnext : ∀ r, c.next fetch = r →
        (st.next fetch = match r with
          | .error e => .error e
          | .ok (v, c') => .ok (v,
              { st with datasets := st.datasets.set st.choiceIdx c',
                        rng := (randUnit st.rng).2 })) := by
      intro r hr
      unfold CombinedDatasetIterator.next
      rw [if_neg (by omega : ¬ st.weights.length ≠ st.datasets.length)]
      rw [if_neg (by exact not_le.mpr hpos)]
      simp only [hc, hr]
    constructor
    · intro e he
      exact hnext (.error e) he
    · intro v c' hok
      refine ⟨hnext (.ok (v, c')) hok, ?_⟩
      intro j hj
      exact List.getElem?_set_ne (fun habs => hj habs.symm)
  · intro hw
    unfold CombinedDatasetIterator.choiceIdx bisectIdx
    rw [hw]
    have hcum : cumAcc [1, 0] = [1, 1] := by
      norm_num [cumAcc]
    rw [hcum]
    have hlen2 : st.datasets.length = 2 := by
      rw [← hlen, hw]
      rfl
    rw [hlen2]
    have hu := randUnit_lt_one st.rng
    simp only [List.getLastD]
    norm_num
    rw [List.findIdx_cons]
    simp [hu]
  · intro cd hw
    unfold CombinedDataset.effWeights
    rw [hw]

/-- Witness for the combinator theorem: with weights `[1, 0]` over two
sources the sample is pulled from source 0 and source 1 is untouched. -/
theorem combined_next_one_source_witness :
    c7state.next demoFetch = .ok ([(5 : Int)],
      { c7state with
          datasets := c7state.datasets.set c7state.choiceIdx
            { c4state with currIdx := c4state.currIdx + 1 },
          rng := (randUnit c7state.rng).2 })
  ∧ c7state.choiceIdx = 0 := by
  have hpos : 0 < (cumAcc c7state.weights).getLastD 0 := by
    show 0 < (cumAcc [1, 0]).getLastD 0
    norm_num [cumAcc]
  have h := combined_next_one_source demoFetch c7state rfl hpos
  have hchoice : c7state.choiceIdx = 0 := h.2.2.1 rfl
  have hc : c7state.datasets[c7state.choiceIdx]? = some c4state := by
    rw [hchoice]
    rfl
  exact ⟨((h.2.1 c4state hc).2 [(5 : Int)]
    { c4state with currIdx := c4state.currIdx + 1 } rfl).1, hchoice⟩

/-- C8: spawning is deterministic: two iterators independently spawned
from the same `PackedDataset` configuration (or two combined iterators
from the same `CombinedDataset` configuration) under the same worker
identity and byte-fetch collaborator produce the same n-th sample for
every n, because each spawn builds its generator afresh from the
configured seed. -/
theorem spawn_determinism :
    (∀ (ds : PackedDataset) (wi : Option WorkerInfo) (fetch : Nat → List Nat)
        (s₁ s₂ : PackedDatasetIterator),
        ds.iter wi fetch = .ok s₁ → ds.iter wi fetch = .ok s₂ →
        ∀ n, nthSample fetch s₁ n = nthSample fetch s₂ n)
  ∧ (∀ (cd : CombinedDataset) (wi : Option WorkerInfo) (fetch : Nat → List Nat)
        (t₁ t₂ : CombinedDatasetIterator),
        cd.iter wi fetch = .ok t₁ → cd.iter wi fetch = .ok t₂ →
        ∀ n, nthCombined fetch t₁ n = nthCombined fetch t₂ n) := by
  constructor
  · intro ds wi fetch s₁ s₂ h1 h2 n
    have h := h1.symm.trans h2
    cases h
    rfl
  · intro cd wi fetch t₁ t₂ h1 h2 n
    have h := h1.symm.trans h2
    cases h
    rfl

/-- Witness for the determinism theorem: a concrete shuffled spawn and a
concrete combined spawn, compared at the third sample. -/
theorem spawn_determinism_witness :
    nthSample demoFetch c8st 2 = nthSample demoFetch c8st 2
  ∧ nthCombined demoFetch c8ct 2 = nthCombined demoFetch c8ct 2 :=
  ⟨spawn_determinism.1 c8cfg none demoFetch c8st c8st rfl rfl 2,
   spawn_determinism.2 c8comb none demoFetch c8ct c8ct rfl rfl 2⟩
